import Mathlib

/-!
# Verification of the pdf-viewer-core search / rotation subsystem

A shallow embedding, in Lean 4, of the search and rotation logic of
`pdf_viewer_core` (files `ui/pdf_scroll_view.py`, `ui/page_widget.py`,
`ui/page_rotation.py`).  Python strings are modelled as `List Char`
(one entry per code point, integer-indexable, as in Python), floats as
exact rationals `ℚ`, Python `int` as `ℤ`/`ℕ`, fallible collaborator
calls (`get_charbox`, text extraction) as `Option`-valued fields of the
page model.  Widget-only side effects (`_apply_hit` highlighting and
scrolling, repainting) touch no search state and are not modelled.
-/

namespace PdfViewerCore

/-! ## Python string primitives

`str.strip` / `str.split` whitespace (ASCII subset of `str.isspace`). -/

/-- Characters treated as whitespace by Python `str.strip`/`str.split`
(ASCII part of `str.isspace`). -/
def isPySpace (c : Char) : Bool :=
  c = ' ' || c = '\t' || c = '\n' || c = '\r' || c = '\x0b' || c = '\x0c'

/-- Python `s.strip()`: drop leading and trailing whitespace. -/
def pyStrip (s : List Char) : List Char :=
  ((s.dropWhile isPySpace).reverse.dropWhile isPySpace).reverse

/-- Python `s.split()` (no separator): split on runs of whitespace,
dropping empty fields.  Fold-based formulation. -/
def pySplit (s : List Char) : List (List Char) :=
  let step := fun (acc : List (List Char) × List Char) (c : Char) =>
    if isPySpace c then
      (if acc.2 = [] then acc.1 else acc.1 ++ [acc.2.reverse], ([] : List Char))
    else
      (acc.1, c :: acc.2)
  let r := s.foldl step ([], [])
  if r.2 = [] then r.1 else r.1 ++ [r.2.reverse]

/-- `" ".join(words)`. -/
def joinSpace (ws : List (List Char)) : List Char :=
  List.intercalate [' '] ws

/-! ## `str.find` and the occurrence scan of `_build_hits` -/

/-- Index (relative to `t`) of the first position at which `q` occurs as
a prefix of the corresponding suffix of `t`; `none` if no such position.
For `q = []` this is `some 0` (Python `find` of the empty string). -/
def findAux (t q : List Char) : Option Nat :=
  match t with
  | [] => if q = [] then some 0 else none
  | _ :: rest =>
    if List.isPrefixOf q t then some 0
    else (findAux rest q).map (· + 1)

/-- Python `text.find(q, pos)` (absolute index, `none` for `-1`):
smallest `i ≥ pos` with `q` occurring at `i`, provided `pos ≤ text.length`. -/
def findFrom (text q : List Char) (pos : Nat) : Option Nat :=
  if pos ≤ text.length then (findAux (text.drop pos) q).map (· + pos)
  else none

/-- The occurrence-collecting loop of `PdfScrollView._build_hits`:
starting at `pos`, repeatedly `find` the query and resume at
`idx + max 1 q.length`.  `fuel` bounds the iteration count;
`text.length + 1` iterations always suffice (the position grows by at
least one per step and `findFrom` fails beyond `text.length`). -/
def scanStartsAux (text q : List Char) : Nat → Nat → List Nat
  | 0, _ => []
  | fuel + 1, pos =>
    match findFrom text q pos with
    | none => []
    | some idx => idx :: scanStartsAux text q fuel (idx + max 1 q.length)

/-- All occurrence start offsets collected by `_build_hits` for query
`q` in `text` (the `starts` list). -/
def scanStarts (text q : List Char) : List Nat :=
  scanStartsAux text q (text.length + 1) 0

/-- Occurrence starts recorded for a raw user query on one page of
text: `find_next`/`find_prev` strip the query before `_build_hits`
scans with it (`q = query.strip()`). -/
def recordedStarts (text query : List Char) : List Nat :=
  scanStarts text (pyStrip query)

/-- Spec-side definition, from the words of the claims: the list of
*all* positions at which the string `q` itself occurs, character for
character, in `text`. -/
def occurrencesOf (q text : List Char) : List Nat :=
  (List.range (text.length + 1)).filter fun i => List.isPrefixOf q (text.drop i)

/-! ## Rotation state (`page_rotation._norm_rot`, `Rotation`) -/

/-- `page_rotation._norm_rot`: reduce any integer degree count to one of
`0, 90, 180, 270` (Python `%` on a positive modulus is nonnegative, as
is Lean's `Int.emod`). -/
def normRot (deg : ℤ) : ℤ :=
  let d := deg % 360
  let d := if d < 0 then d + 360 else d
  (d / 90) * 90

/-- `Rotation.cw`: one clockwise 90° step. -/
def rotCw (deg : ℤ) : ℤ := normRot (deg + 90)

/-- `Rotation.ccw`: one counter-clockwise 90° step. -/
def rotCcw (deg : ℤ) : ℤ := normRot (deg - 90)

/-- `PdfScrollView.rotate_cw`: calls `set_rotation_ccw` once on every
page widget (the direction swap is intentional and commented in the
source). States are the per-page rotation degree counts. -/
def rotateCwView (rs : List ℤ) : List ℤ :=
  rs.map fun r => rotCcw r

/-- `PdfScrollView.rotate_ccw` as written: the loop body contains
`w.set_rotation_cw()` twice (the second occurrence, separated by two
blank lines, is still inside the `isinstance` block), so every page
widget takes two clockwise steps per invocation. -/
def rotateCcwView (rs : List ℤ) : List ℤ :=
  rs.map fun r => rotCw (rotCw r)

/-- `PageWidget.rotation_deg`: the normalized rotation of one page. -/
def rotationDeg (r : ℤ) : ℤ := normRot r

end PdfViewerCore

namespace PdfViewerCore

/-! ## Geometry: `page_rotation.map_point_unrot_to_rot` / `map_rect_unrot_to_rot` -/

/-- `QRectF` as used by the rotation code: stored as origin plus
extents, with `left = x`, `top = y`, `right = x + w`, `bottom = y + h`. -/
structure QRectF where
  x : ℚ
  y : ℚ
  w : ℚ
  h : ℚ
deriving DecidableEq

def QRectF.left (r : QRectF) : ℚ := r.x
def QRectF.top (r : QRectF) : ℚ := r.y
def QRectF.right (r : QRectF) : ℚ := r.x + r.w
def QRectF.bottom (r : QRectF) : ℚ := r.y + r.h

/-- `map_point_unrot_to_rot`: map a point of the unrotated `w × h`
raster into the raster rotated clockwise by `rot_deg`. -/
def mapPointUnrotToRot (x y : ℚ) (w h : ℚ) (rotDeg : ℤ) : ℚ × ℚ :=
  let r := normRot rotDeg
  if r = 0 then (x, y)
  else if r = 90 then (h - y, x)
  else if r = 180 then (w - x, h - y)
  else if r = 270 then (y, w - x)
  else (x, y)

/-- `map_rect_unrot_to_rot`: map the four corners individually and
return their axis-aligned bounding box, with width and height floored
at 1 unit. -/
def mapRectUnrotToRot (rect : QRectF) (w h : ℚ) (rotDeg : ℤ) : QRectF :=
  let p1 := mapPointUnrotToRot rect.left rect.top w h rotDeg
  let p2 := mapPointUnrotToRot rect.right rect.top w h rotDeg
  let p3 := mapPointUnrotToRot rect.right rect.bottom w h rotDeg
  let p4 := mapPointUnrotToRot rect.left rect.bottom w h rotDeg
  let x0 := min (min p1.1 p2.1) (min p3.1 p4.1)
  let x1 := max (max p1.1 p2.1) (max p3.1 p4.1)
  let y0 := min (min p1.2 p2.2) (min p3.2 p4.2)
  let y1 := max (max p1.2 p2.2) (max p3.2 p4.2)
  ⟨x0, y0, max 1 (x1 - x0), max 1 (y1 - y0)⟩

/-! ## The page model and `_build_hits` -/

/-- A raw character box as returned by `textpage.get_charbox`, after
the duck-typing normalization at the top of the loop body: either the
attribute form (`left`, `bottom`, `right`, `top`) or the 4-tuple form
`(l, b, r, t)` yields these four floats. -/
structure RawBox where
  left : ℚ
  bottom : ℚ
  right : ℚ
  top : ℚ
deriving DecidableEq

/-- A highlight / character rectangle in the `(l, t, r, b)` order used
by the `rects` lists of `pdf_scroll_view.py`. -/
structure PyRect where
  l : ℚ
  t : ℚ
  r : ℚ
  b : ℚ
deriving DecidableEq

/-- One document page as `_build_hits` observes it.  `text = none`
models the `except: continue` around `count_chars`/`get_text_range`;
`charbox i = none` models `get_charbox` raising for offset `i`.
`nChars` is `textpage.count_chars()`. -/
structure Page where
  nChars : Nat
  text : Option (List Char)
  charbox : Nat → Option RawBox

/-- Per-character normalization inside the occurrence loop: order the
coordinates, and drop the box when it is degenerate
(`r2 <= l2 or t2 <= b2`). -/
def normCharBox (bx : RawBox) : Option PyRect :=
  let l2 := min bx.left bx.right
  let r2 := max bx.left bx.right
  let b2 := min bx.bottom bx.top
  let t2 := max bx.bottom bx.top
  if r2 ≤ l2 ∨ t2 ≤ b2 then none else some ⟨l2, t2, r2, b2⟩

/-- Insertion sort on rationals (Python `sorted` on the height list). -/
def insertQ (a : ℚ) : List ℚ → List ℚ
  | [] => [a]
  | b :: bs => if a ≤ b then a :: b :: bs else b :: insertQ a bs

def sortQ : List ℚ → List ℚ
  | [] => []
  | a :: as => insertQ a (sortQ as)

/-- Python `min` of a nonempty list (junk value 0 on `[]`). -/
def qMin : List ℚ → ℚ
  | [] => 0
  | x :: xs => xs.foldl min x

/-- Python `max` of a nonempty list (junk value 0 on `[]`). -/
def qMax : List ℚ → ℚ
  | [] => 0
  | x :: xs => xs.foldl max x

/-- The usable character boxes gathered for an occurrence spanning
offsets `[s, e)`. -/
def occCharRects (charbox : Nat → Option RawBox) (s e : Nat) : List PyRect :=
  (List.range' s (e - s)).filterMap fun ci => (charbox ci).bind normCharBox

/-- The highlight rectangle `_build_hits` emits for one occurrence:
`none` when no character box is usable (the occurrence is dropped);
otherwise the padded union of the boxes, with padding 20% / 30% of the
median character height. -/
def occRect (charbox : Nat → Option RawBox) (s e : Nat) : Option PyRect :=
  let charRects := occCharRects charbox s e
  if charRects = [] then none
  else
    let heights := sortQ ((charRects.filter fun c => c.b < c.t).map fun c => c.t - c.b)
    let hMed := heights.getD (heights.length / 2) 1
    let lmin := qMin (charRects.map fun c => c.l)
    let tmax := qMax (charRects.map fun c => c.t)
    let rmax := qMax (charRects.map fun c => c.r)
    let bmin := qMin (charRects.map fun c => c.b)
    let padX := hMed * (1 / 5)
    let padY := hMed * (3 / 10)
    some ⟨lmin - padX, tmax + padY, rmax + padX, bmin - padY⟩

/-- The snippet built for one occurrence `[s, e)` on 0-based page `i`:
±20 characters of context, `\r`/`\n` replaced by spaces, whitespace
runs collapsed, `"..."` markers for truncation, `"p{i+1}: "` label. -/
def buildSnippet (i : Nat) (full : List Char) (s e : Nat) : List Char :=
  let left := s - 20
  let right := min full.length (e + 20)
  let snip0 := (full.drop left).take (right - left)
  let snip1 := snip0.map fun c => if c = '\r' then ' ' else if c = '\n' then ' ' else c
  let snip2 := joinSpace (pySplit snip1)
  let snip3 := if 0 < left then '.' :: '.' :: '.' :: snip2 else snip2
  let snip4 := if right < full.length then snip3 ++ ['.', '.', '.'] else snip3
  'p' :: (Nat.toDigits 10 (i + 1) ++ (':' :: ' ' :: snip4))

/-- `Hit` (a frozen dataclass): all occurrences of the current query on
one page. -/
structure Hit where
  page_index : Nat
  rects : List PyRect
  snippets : List (List Char)
  active_rect : Nat
deriving DecidableEq

/-- `SearchResult`: flattened read-only projection for the results list. -/
structure SearchResult where
  page_index : Nat
  rect_index : Nat
  snippet : List Char
deriving DecidableEq

/-- The `rects` list the `_build_hits` loop accumulates for one page:
one rectangle per occurrence with usable boxes, in occurrence order. -/
def pageRects (q : List Char) (pg : Page) (full : List Char) : List PyRect :=
  (scanStarts full q).filterMap fun s => occRect pg.charbox s (min pg.nChars (s + q.length))

/-- The `snippets` list the `_build_hits` loop accumulates for one
page: one snippet per occurrence, appended *before* the usable-box
check. -/
def pageSnippets (q : List Char) (i : Nat) (pg : Page) (full : List Char) : List (List Char) :=
  (scanStarts full q).map fun s => buildSnippet i full s (min pg.nChars (s + q.length))

/-- The `Hit` that `_build_hits` appends for 0-based page `i`, if any:
snippets are appended for *every* occurrence, rectangles only for the
occurrences with usable boxes, and when the lengths differ the snippet
list is truncated to the length of the rectangle list. -/
def buildPageHit (q : List Char) (i : Nat) (pg : Page) : Option Hit :=
  match pg.text with
  | none => none
  | some full =>
    if scanStarts full q = [] then none
    else if pageRects q pg full = [] then none
    else
      some ⟨i, pageRects q pg full,
        if (pageSnippets q i pg full).length ≠ (pageRects q pg full).length
        then (pageSnippets q i pg full).take (pageRects q pg full).length
        else pageSnippets q i pg full, 0⟩

/-- The full hit list `_build_hits` computes for a query: strip the
query, and collect the per-page hits in page order. -/
def buildHitsList (pages : List Page) (query : List Char) : List Hit :=
  if pyStrip query = [] then []
  else pages.enum.filterMap fun p => buildPageHit (pyStrip query) p.1 p.2

/-! ## The `PdfScrollView` search state machine -/

/-- The mutable search state of a `PdfScrollView`: the loaded document
(pages), `_hits`, `_hit_cursor` and `_last_query`. -/
structure ViewState where
  doc : Option (List Page)
  hits : List Hit
  hitCursor : ℤ
  lastQuery : Option (List Char)

/-- Python `if not self._doc:` — `PdfDocument` defines `__len__`, so a
missing document *and* a zero-page document are both falsy. -/
def docOk : Option (List Page) → Bool
  | none => false
  | some pgs => !pgs.isEmpty

/-- List indexing used for `self._hits[k]` (in every reachable use the
index is in range; the default keeps the model total). -/
def hget (hs : List Hit) (n : Nat) : Hit :=
  hs.getD n ⟨0, [], [], 0⟩

/-- `PdfScrollView._build_hits` as a state transformer: resets `_hits`
and `_hit_cursor`, then fills `_hits` (an early `return` keeps the
state untouched when no document is loaded). -/
def buildHits (query : List Char) (s : ViewState) : ViewState :=
  match s.doc with
  | none => s
  | some pages => { s with hits := buildHitsList pages query, hitCursor := -1 }

/-- Rebuild step at the top of `find_next`/`find_prev`: when there are
no hits yet or the (stripped) query changed, set `_last_query` and run
`_build_hits`. -/
def rebuildIfNeeded (q : List Char) (s : ViewState) : ViewState :=
  if s.hits = [] ∨ s.lastQuery ≠ some q
  then buildHits q { s with lastQuery := some q }
  else s

/-- The cursor-advancing tail of `find_next`, after any rebuild. -/
def nextStep (s1 : ViewState) : Bool × ViewState :=
  if s1.hits = [] then (false, s1)
  else if s1.hitCursor = -1 then
    (true, { s1 with hitCursor := 0,
                     hits := s1.hits.set 0 ({ hget s1.hits 0 with active_rect := 0 }) })
  else if (hget s1.hits s1.hitCursor.toNat).rects ≠ []
      ∧ (hget s1.hits s1.hitCursor.toNat).active_rect
          < (hget s1.hits s1.hitCursor.toNat).rects.length - 1 then
    (true, { s1 with
               hits := s1.hits.set s1.hitCursor.toNat
                 ({ hget s1.hits s1.hitCursor.toNat with
                    active_rect := (hget s1.hits s1.hitCursor.toNat).active_rect + 1 }) })
  else if s1.hitCursor < (s1.hits.length : ℤ) - 1 then
    (true, { s1 with hitCursor := s1.hitCursor + 1,
                     hits := s1.hits.set (s1.hitCursor.toNat + 1)
                       ({ hget s1.hits (s1.hitCursor.toNat + 1) with active_rect := 0 }) })
  else (true, s1)

/-- The cursor-retreating tail of `find_prev`, after any rebuild.  From
`cursor == -1` it lands on the last hit's last rectangle. -/
def prevStep (s1 : ViewState) : Bool × ViewState :=
  if s1.hits = [] then (false, s1)
  else if s1.hitCursor = -1 then
    (true, { s1 with hitCursor := (s1.hits.length - 1 : Nat),
                     hits := s1.hits.set (s1.hits.length - 1)
                       ({ hget s1.hits (s1.hits.length - 1) with
                          active_rect := (hget s1.hits (s1.hits.length - 1)).rects.length - 1 }) })
  else if (hget s1.hits s1.hitCursor.toNat).rects ≠ []
      ∧ 0 < (hget s1.hits s1.hitCursor.toNat).active_rect then
    (true, { s1 with
               hits := s1.hits.set s1.hitCursor.toNat
                 ({ hget s1.hits s1.hitCursor.toNat with
                    active_rect := (hget s1.hits s1.hitCursor.toNat).active_rect - 1 }) })
  else if 0 < s1.hitCursor then
    (true, { s1 with hitCursor := s1.hitCursor - 1,
                     hits := s1.hits.set (s1.hitCursor.toNat - 1)
                       ({ hget s1.hits (s1.hitCursor.toNat - 1) with
                          active_rect := (hget s1.hits (s1.hitCursor.toNat - 1)).rects.length - 1 }) })
  else (true, s1)

/-- `PdfScrollView.find_next`.  Returns the Python `bool` together with
the state after the call. -/
def findNext (query : List Char) (s : ViewState) : Bool × ViewState :=
  if !docOk s.doc then (false, s)
  else if pyStrip query = [] then (false, s)
  else nextStep (rebuildIfNeeded (pyStrip query) s)

/-- `PdfScrollView.find_prev`. -/
def findPrev (query : List Char) (s : ViewState) : Bool × ViewState :=
  if !docOk s.doc then (false, s)
  else if pyStrip query = [] then (false, s)
  else prevStep (rebuildIfNeeded (pyStrip query) s)

/-- `PdfScrollView.goto_result`: jump to `(page_index, rect_index)`,
clamping `rect_index` into range. -/
def gotoResult (pageIndex : Nat) (rectIndex : ℤ) (s : ViewState) : Bool × ViewState :=
  if s.hits = [] then (false, s)
  else
    match s.hits.findIdx? (fun h => h.page_index = pageIndex) with
    | none => (false, s)
    | some hitPos =>
      if (hget s.hits hitPos).rects = [] then (false, s)
      else
        (true, { s with hitCursor := (hitPos : ℤ),
                        hits := s.hits.set hitPos
                          ({ hget s.hits hitPos with
                             active_rect :=
                               (max 0 (min rectIndex
                                 (((hget s.hits hitPos).rects.length : ℤ) - 1))).toNat }) })

/-- Total rectangle count over all hits (the `total` of
`get_search_status`). -/
def totalRects (s : ViewState) : Nat :=
  (s.hits.map fun h => h.rects.length).sum

/-- Rectangle count on the hits strictly before the cursor (the
`before` accumulator of `get_search_status`). -/
def beforeRects (s : ViewState) : Nat :=
  ((s.hits.take s.hitCursor.toNat).map fun h => h.rects.length).sum

/-- `PdfScrollView.get_search_status`:
`(current_1based, total, page_1based)`, or `none`. -/
def getSearchStatus (s : ViewState) : Option (Nat × Nat × Nat) :=
  if s.hits = [] ∨ s.hitCursor < 0 then none
  else if totalRects s = 0 then none
  else
    some (beforeRects s
            + min (hget s.hits s.hitCursor.toNat).active_rect
                ((hget s.hits s.hitCursor.toNat).rects.length - 1)
            + 1,
          totalRects s,
          (hget s.hits s.hitCursor.toNat).page_index + 1)

/-- `PdfScrollView.get_search_results`: one `SearchResult` per snippet,
in hit order. -/
def getSearchResults (s : ViewState) : List SearchResult :=
  s.hits.flatMap fun h =>
    h.snippets.enum.map fun p => ⟨h.page_index, p.1, p.2⟩

/-! ## Derived notions used in the statements -/

/-- The four corners of a `QRectF`, in the order the source maps them. -/
def corners (rect : QRectF) : List (ℚ × ℚ) :=
  [(rect.left, rect.top), (rect.right, rect.top),
   (rect.right, rect.bottom), (rect.left, rect.bottom)]

/-- `idx` is the leftmost occurrence of `q` in `text` at or after
`pos`: `q` occurs at `idx`, and at no earlier position `≥ pos`. -/
def leastOccFrom (text q : List Char) (pos idx : Nat) : Prop :=
  pos ≤ idx ∧ q <+: text.drop idx ∧ ∀ j, pos ≤ j → j < idx → ¬ q <+: text.drop j

/-- The occurrence starts that actually contribute a rectangle on a
page (those not discarded for lack of usable character boxes). -/
def keptStarts (q : List Char) (pg : Page) (full : List Char) : List Nat :=
  (scanStarts full q).filter fun s =>
    (occRect pg.charbox s (min pg.nChars (s + q.length))).isSome

/-- A hit whose parallel lists agree in length. -/
def hitLenOk (h : Hit) : Prop := h.snippets.length = h.rects.length

/-- All hits of a state have snippet/rectangle lists of equal length. -/
def stateLenOk (s : ViewState) : Prop := ∀ h ∈ s.hits, hitLenOk h

/-- The session states reachable through loading a document and the
public search operations of `PdfScrollView`. -/
inductive Reachable : ViewState → Prop where
  | empty : Reachable ⟨none, [], -1, none⟩
  | load (pages : List Page) : Reachable ⟨some pages, [], -1, none⟩
  | next (q : List Char) (s : ViewState) : Reachable s → Reachable (findNext q s).2
  | prev (q : List Char) (s : ViewState) : Reachable s → Reachable (findPrev q s).2
  | goto (p : Nat) (r : ℤ) (s : ViewState) : Reachable s → Reachable (gotoResult p r s).2

/-! ## Concrete fixtures for witnesses and counterexamples -/

/-- A one-page document whose page text is `"a"` with a unit character
box at every offset. -/
def onePage : Page := ⟨1, some ['a'], fun _ => some ⟨0, 0, 1, 1⟩⟩

/-- A page used only to make the document truthy in hand-built states. -/
def dummyPage : Page := ⟨0, some [], fun _ => none⟩

/-- Page text `"a" ++ "x"*23 ++ "a"`: the query `"a"` occurs at offsets
0 and 24, far enough apart that the two snippets differ. -/
def mixText : List Char := 'a' :: (List.replicate 23 'x' ++ ['a'])

/-- A page on which the occurrence at offset 0 has no usable character
box (it is discarded) while the occurrence at offset 24 has one. -/
def mixPage : Page :=
  ⟨25, some mixText, fun ci => if ci = 24 then some ⟨0, 0, 1, 1⟩ else none⟩

/-- The state reached by loading the one-page document and running one
successful `find_next("a")`. -/
def afterFirstNext : ViewState :=
  (findNext ['a'] ⟨some [onePage], [], -1, none⟩).2

/-- A hand-built mid-session state: one hit on page 0 with one
rectangle, cursor on it. -/
def oneHitState : ViewState :=
  ⟨some [dummyPage], [⟨0, [⟨0, 1, 1, 0⟩], [['x']], 0⟩], 0, some ['a']⟩

/-- The same session state before any navigation (`cursor == -1`). -/
def freshHitState : ViewState :=
  ⟨some [dummyPage], [⟨0, [⟨0, 1, 1, 0⟩], [['x']], 0⟩], -1, some ['a']⟩

/-! ## Correctness of the `find`-from-cursor primitives -/

theorem findAux_sound {t q : List Char} {r : Nat} (h : findAux t q = some r) :
    q <+: t.drop r ∧ r ≤ t.length := by
  induction t generalizing r with
  | nil =>
    unfold findAux at h
    split at h
    · next hq => cases h; simp [hq]
    · exact absurd h (by simp)
  | cons c rest ih =>
    unfold findAux at h
    split at h
    · next hp =>
      cases h
      exact ⟨List.isPrefixOf_iff_prefix.mp hp, Nat.zero_le _⟩
    · next hp =>
      rcases Option.map_eq_some'.mp h with ⟨r', hr', rfl⟩
      rcases ih hr' with ⟨h1, h2⟩
      exact ⟨h1, by simpa using Nat.succ_le_succ h2⟩

theorem findAux_min {t q : List Char} {r : Nat} (h : findAux t q = some r) :
    ∀ j, j < r → ¬ q <+: t.drop j := by
  induction t generalizing r with
  | nil =>
    unfold findAux at h
    split at h
    · cases h; intro j hj; omega
    · exact absurd h (by simp)
  | cons c rest ih =>
    unfold findAux at h
    split at h
    · cases h; intro j hj; omega
    · next hp =>
      rcases Option.map_eq_some'.mp h with ⟨r', hr', rfl⟩
      intro j hj
      match j with
      | 0 =>
        simpa [List.isPrefixOf_iff_prefix] using hp
      | j' + 1 =>
        exact ih hr' j' (by omega)

theorem findAux_none {t q : List Char} (h : findAux t q = none) :
    ∀ j, ¬ q <+: t.drop j := by
  induction t with
  | nil =>
    unfold findAux at h
    split at h
    · exact absurd h (by simp)
    · next hq => intro j; simpa [List.drop_nil] using hq
  | cons c rest ih =>
    unfold findAux at h
    split at h
    · exact absurd h (by simp)
    · next hp =>
      have hrest : findAux rest q = none := by
        cases hfa : findAux rest q with
        | none => rfl
        | some r => rw [hfa] at h; simp at h
      intro j
      match j with
      | 0 => simpa [List.isPrefixOf_iff_prefix] using hp
      | j' + 1 => exact ih hrest j'

theorem findFrom_sound {text q : List Char} {pos idx : Nat}
    (h : findFrom text q pos = some idx) :
    pos ≤ idx ∧ idx ≤ text.length ∧ q <+: text.drop idx := by
  unfold findFrom at h
  split at h
  · next hpos =>
    rcases Option.map_eq_some'.mp h with ⟨r, hr, rfl⟩
    rcases findAux_sound hr with ⟨h1, h2⟩
    rw [List.length_drop] at h2
    refine ⟨by omega, by omega, ?_⟩
    rwa [List.drop_drop, Nat.add_comm] at h1
  · exact absurd h (by simp)

theorem findFrom_min {text q : List Char} {pos idx : Nat}
    (h : findFrom text q pos = some idx) :
    ∀ j, pos ≤ j → j < idx → ¬ q <+: text.drop j := by
  unfold findFrom at h
  split at h
  · next hpos =>
    rcases Option.map_eq_some'.mp h with ⟨r, hr, rfl⟩
    intro j hj1 hj2
    have hje : j = pos + (j - pos) := by omega
    rw [hje, ← List.drop_drop]
    exact findAux_min hr (j - pos) (by omega)
  · exact absurd h (by simp)

theorem findFrom_none {text q : List Char} {pos : Nat} (hq : q ≠ [])
    (h : findFrom text q pos = none) :
    ∀ j, pos ≤ j → ¬ q <+: text.drop j := by
  unfold findFrom at h
  split at h
  · next hpos =>
    intro j hj
    have hje : j = pos + (j - pos) := by omega
    have hfa : findAux (text.drop pos) q = none := by
      cases hfa : findAux (text.drop pos) q with
      | none => rfl
      | some r => rw [hfa] at h; simp at h
    rw [hje, ← List.drop_drop]
    exact findAux_none hfa _
  · next hpos =>
    intro j hj hpre
    have hdrop : text.drop j = [] := List.drop_eq_nil_of_le (by omega)
    rw [hdrop] at hpre
    exact hq (List.prefix_nil.mp hpre)

theorem findFrom_leastOcc {text q : List Char} {pos idx : Nat}
    (h : findFrom text q pos = some idx) : leastOccFrom text q pos idx := by
  rcases findFrom_sound h with ⟨h1, _, h3⟩
  exact ⟨h1, h3, findFrom_min h⟩

/-! ## Correctness of the occurrence scan -/

theorem mem_scanStartsAux {text q : List Char} :
    ∀ {fuel pos s : Nat}, s ∈ scanStartsAux text q fuel pos →
      pos ≤ s ∧ s ≤ text.length ∧ q <+: text.drop s := by
  intro fuel
  induction fuel with
  | zero => intro pos s h; simp [scanStartsAux] at h
  | succ fuel ih =>
    intro pos s h
    unfold scanStartsAux at h
    split at h
    · simp at h
    · next idx hidx =>
      rcases List.mem_cons.mp h with rfl | hmem
      · rcases findFrom_sound hidx with ⟨h1, h2, h3⟩
        exact ⟨h1, h2, h3⟩
      · rcases ih hmem with ⟨h1, h2, h3⟩
        rcases findFrom_sound hidx with ⟨h1', _, _⟩
        refine ⟨by omega, h2, h3⟩

theorem scanStartsAux_head {text q : List Char} :
    ∀ {fuel pos s : Nat} {l : List Nat},
      scanStartsAux text q fuel pos = s :: l → findFrom text q pos = some s := by
  intro fuel pos s l h
  match fuel with
  | 0 => simp [scanStartsAux] at h
  | fuel + 1 =>
    unfold scanStartsAux at h
    split at h
    · simp at h
    · next idx hidx => cases h; exact hidx

theorem scanStartsAux_chain {text q : List Char} :
    ∀ {fuel pos : Nat},
      (scanStartsAux text q fuel pos).Chain'
        (fun a b => findFrom text q (a + max 1 q.length) = some b) := by
  intro fuel
  induction fuel with
  | zero => intro pos; simp [scanStartsAux]
  | succ fuel ih =>
    intro pos
    unfold scanStartsAux
    split
    · simp
    · next idx hidx =>
      rw [List.chain'_cons']
      refine ⟨?_, ih⟩
      intro b hb
      cases hl : scanStartsAux text q fuel (idx + max 1 q.length) with
      | nil => rw [hl] at hb; simp at hb
      | cons s l =>
        rw [hl] at hb
        simp only [List.head?_cons, Option.mem_def, Option.some_inj] at hb
        subst hb
        exact scanStartsAux_head hl

/-! ## C1 — rotation steps -/

/-- C1: the claim states every rotate invocation moves each page's
rotation by exactly one 90° step.  `rotate_ccw` as written applies
`set_rotation_cw` twice per page, so from rotation 0 a single
`rotate_ccw` call leaves every page at 180°, which is neither
`(0 + 90) % 360` nor `(0 - 90 + 360) % 360`: the code contradicts the
claim (and its own surrounding comments) at this input. -/
theorem c1_rotate_ccw_double_step :
    rotateCcwView [0] = [180] ∧ rotationDeg 180 = 180 ∧
      (180 : ℤ) ≠ (0 + 90) % 360 ∧ (180 : ℤ) ≠ (0 - 90 + 360) % 360 := by
  decide

/-! ## C3 — exact-substring matching -/

/-- C3 counterexample: the claim says the occurrences recorded for a
query `q` are exactly the occurrences of the string `q` itself,
including its leading/trailing whitespace.  For the query `" a"` on the
page text `"b a"` the code records offset 2 (it strips the query and
searches for `"a"`), while `" a"` itself occurs exactly at offset 1;
and even after stripping, overlapping occurrences are not all recorded
(`"aa"` in `"aaa"`). -/
theorem c3_strip_counterexample :
    recordedStarts ['b', ' ', 'a'] [' ', 'a'] = [2] ∧
      occurrencesOf [' ', 'a'] ['b', ' ', 'a'] = [1] ∧
      recordedStarts ['b', ' ', 'a'] [' ', 'a'] ≠ occurrencesOf [' ', 'a'] ['b', ' ', 'a'] ∧
      scanStarts ['a', 'a', 'a'] ['a', 'a'] = [0] ∧
      occurrencesOf ['a', 'a'] ['a', 'a', 'a'] = [0, 1] := by
  decide

/-- C3 (amended): matching is case-sensitive exact-substring on the
*stripped* query: every recorded offset is a character-for-character
occurrence of `pyStrip q` in the page text (no case folding, no
normalization of the text), and no occurrence of the stripped query
precedes the first recorded one (occurrences may be skipped only by
the non-overlap resume rule, C7). -/
theorem c3_matching_exact_on_stripped (text query : List Char) :
    (∀ s ∈ recordedStarts text query, pyStrip query <+: text.drop s) ∧
      (pyStrip query ≠ [] →
        ∀ j, pyStrip query <+: text.drop j →
          ∃ s ∈ recordedStarts text query, s ≤ j) := by
  constructor
  · intro s hs
    exact (mem_scanStartsAux hs).2.2
  · intro hq j hj
    cases hf : findFrom text (pyStrip query) 0 with
    | none => exact absurd hj (findFrom_none hq hf j (Nat.zero_le j))
    | some s0 =>
      refine ⟨s0, ?_, ?_⟩
      · unfold recordedStarts scanStarts scanStartsAux
        rw [hf]
        exact List.mem_cons_self _ _
      · by_contra hlt
        exact findFrom_min hf j (Nat.zero_le j) (by omega) hj

/-- C3 witness: on the text `"b a"` with query `" a"`, some occurrence
of the stripped query is recorded at or before offset 2. -/
theorem c3_witness :
    ∃ s ∈ recordedStarts ['b', ' ', 'a'] [' ', 'a'], s ≤ 2 :=
  (c3_matching_exact_on_stripped ['b', ' ', 'a'] [' ', 'a']).2 (by decide) 2 (by decide)

/-! ## C8 — the rotation transform -/

/-- C8: the point transform is the identity at 0°, `(x, y) ↦ (h - y, x)`
at 90° clockwise, `(x, y) ↦ (w - x, h - y)` at 180°, and
`(x, y) ↦ (y, w - x)` at 270°; and the rectangle transform maps the
four corners individually and returns their axis-aligned bounding box
with width and height each floored at 1 unit. -/
theorem c8_transform_formulas (x y w h : ℚ) (rect : QRectF) (d : ℤ) :
    mapPointUnrotToRot x y w h 0 = (x, y) ∧
      mapPointUnrotToRot x y w h 90 = (h - y, x) ∧
      mapPointUnrotToRot x y w h 180 = (w - x, h - y) ∧
      mapPointUnrotToRot x y w h 270 = (y, w - x) ∧
      (mapRectUnrotToRot rect w h d).x
          = qMin ((corners rect).map fun p => (mapPointUnrotToRot p.1 p.2 w h d).1) ∧
      (mapRectUnrotToRot rect w h d).y
          = qMin ((corners rect).map fun p => (mapPointUnrotToRot p.1 p.2 w h d).2) ∧
      (mapRectUnrotToRot rect w h d).w
          = max 1 (qMax ((corners rect).map fun p => (mapPointUnrotToRot p.1 p.2 w h d).1)
              - qMin ((corners rect).map fun p => (mapPointUnrotToRot p.1 p.2 w h d).1)) ∧
      (mapRectUnrotToRot rect w h d).h
          = max 1 (qMax ((corners rect).map fun p => (mapPointUnrotToRot p.1 p.2 w h d).2)
              - qMin ((corners rect).map fun p => (mapPointUnrotToRot p.1 p.2 w h d).2)) := by
  refine ⟨by norm_num [mapPointUnrotToRot, normRot],
    by norm_num [mapPointUnrotToRot, normRot],
    by norm_num [mapPointUnrotToRot, normRot],
    by norm_num [mapPointUnrotToRot, normRot], ?_, ?_, ?_, ?_⟩ <;>
    simp [mapRectUnrotToRot, corners, qMin, qMax, min_assoc, max_assoc]

/-! ## C9 — 180° is self-inverse on rectangles -/

/-- C9 counterexample: the claim quantifies over *every* rectangle, but
a rectangle of width or height below 1 unit is widened to the 1-unit
floor by the first application, so the double application does not
return it: with `w = h = 10` and the rectangle at `(0, 0)` of size
`1/2 × 1/2`, the double 180° transform yields a different rectangle. -/
theorem c9_floor_counterexample :
    mapRectUnrotToRot (mapRectUnrotToRot ⟨0, 0, 1/2, 1/2⟩ 10 10 180) 10 10 180
      ≠ (⟨0, 0, 1/2, 1/2⟩ : QRectF) := by
  simp only [mapRectUnrotToRot, mapPointUnrotToRot, normRot, QRectF.left, QRectF.top,
    QRectF.right, QRectF.bottom]
  norm_num

/-- Evaluation of one 180° application on a rectangle of width and
height at least 1: the corner bounding box needs no flooring. -/
theorem mapRect_at_180 (rect : QRectF) (w h : ℚ)
    (h1 : 1 ≤ rect.w) (h2 : 1 ≤ rect.h) :
    mapRectUnrotToRot rect w h 180
      = ⟨w - rect.x - rect.w, h - rect.y - rect.h, rect.w, rect.h⟩ := by
  have hp : ∀ a b : ℚ, mapPointUnrotToRot a b w h 180 = (w - a, h - b) := by
    intro a b; norm_num [mapPointUnrotToRot, normRot]
  simp only [mapRectUnrotToRot, hp, QRectF.left, QRectF.top, QRectF.right, QRectF.bottom]
  have e1 : min (w - rect.x) (w - (rect.x + rect.w)) = w - (rect.x + rect.w) :=
    min_eq_right (by linarith)
  have e1' : min (w - (rect.x + rect.w)) (w - rect.x) = w - (rect.x + rect.w) :=
    min_eq_left (by linarith)
  have e2 : max (w - rect.x) (w - (rect.x + rect.w)) = w - rect.x :=
    max_eq_left (by linarith)
  have e2' : max (w - (rect.x + rect.w)) (w - rect.x) = w - rect.x :=
    max_eq_right (by linarith)
  have e3 : min (h - rect.y) (h - (rect.y + rect.h)) = h - (rect.y + rect.h) :=
    min_eq_right (by linarith)
  have e3' : min (h - (rect.y + rect.h)) (h - rect.y) = h - (rect.y + rect.h) :=
    min_eq_left (by linarith)
  have e4 : max (h - rect.y) (h - (rect.y + rect.h)) = h - rect.y :=
    max_eq_left (by linarith)
  have e4' : max (h - (rect.y + rect.h)) (h - rect.y) = h - rect.y :=
    max_eq_right (by linarith)
  simp only [e1, e1', e2, e2', e3, e3', e4, e4', min_self, max_self]
  have ew : max 1 (w - rect.x - (w - (rect.x + rect.w))) = rect.w := by
    rw [show w - rect.x - (w - (rect.x + rect.w)) = rect.w by ring]
    exact max_eq_right h1
  have eh : max 1 (h - rect.y - (h - (rect.y + rect.h))) = rect.h := by
    rw [show h - rect.y - (h - (rect.y + rect.h)) = rect.h by ring]
    exact max_eq_right h2
  rw [ew, eh]
  congr 1 <;> ring

/-- C9 (amended): for every rectangle whose width and height are at
least 1 unit (so the degenerate-size floor never engages), applying the
180° rectangle transform twice returns the original rectangle exactly. -/
theorem c9_double_180_id (rect : QRectF) (w h : ℚ)
    (h1 : 1 ≤ rect.w) (h2 : 1 ≤ rect.h) :
    mapRectUnrotToRot (mapRectUnrotToRot rect w h 180) w h 180 = rect := by
  rw [mapRect_at_180 rect w h h1 h2]
  rw [mapRect_at_180 ⟨w - rect.x - rect.w, h - rect.y - rect.h, rect.w, rect.h⟩ w h h1 h2]
  obtain ⟨a, b, c, d⟩ := rect
  simp only
  congr 1 <;> ring

/-- C9 witness: at the concrete rectangle `(2, 3, 4, 5)` on a
`100 × 50` raster, both hypotheses hold and the double application is
the identity. -/
theorem c9_witness :
    (1 : ℚ) ≤ (⟨2, 3, 4, 5⟩ : QRectF).w ∧ (1 : ℚ) ≤ (⟨2, 3, 4, 5⟩ : QRectF).h ∧
      mapRectUnrotToRot (mapRectUnrotToRot ⟨2, 3, 4, 5⟩ 100 50 180) 100 50 180
        = (⟨2, 3, 4, 5⟩ : QRectF) :=
  ⟨by norm_num, by norm_num,
    c9_double_180_id ⟨2, 3, 4, 5⟩ 100 50 (by norm_num) (by norm_num)⟩

/-! ## C7 — scan order and page contribution -/

theorem le_fst_of_mem_enumFrom {α : Type} {x : Nat × α} :
    ∀ {n : Nat} {l : List α}, x ∈ List.enumFrom n l → n ≤ x.1 := by
  intro n l
  induction l generalizing n with
  | nil => intro h; simp [List.enumFrom] at h
  | cons a l ih =>
    intro h
    rcases List.mem_cons.mp h with rfl | hmem
    · exact Nat.le_refl _
    · exact Nat.le_of_succ_le (ih hmem)

theorem pairwise_fst_lt_enumFrom {α : Type} :
    ∀ (n : Nat) (l : List α), (List.enumFrom n l).Pairwise (fun a b => a.1 < b.1) := by
  intro n l
  induction l generalizing n with
  | nil => simp [List.enumFrom]
  | cons a l ih =>
    refine List.Pairwise.cons ?_ (ih (n + 1))
    intro b hb
    exact Nat.lt_of_succ_le (le_fst_of_mem_enumFrom hb)

theorem buildPageHit_page_index {q : List Char} {i : Nat} {pg : Page} {h : Hit}
    (hh : buildPageHit q i pg = some h) : h.page_index = i := by
  unfold buildPageHit at hh
  split at hh
  · exact absurd hh (by simp)
  · split at hh
    · exact absurd hh (by simp)
    · split at hh
      · exact absurd hh (by simp)
      · cases hh; rfl

/-- C7: the scan records the leftmost occurrence first, each further
recorded occurrence is the leftmost one at or after the previous start
plus `max 1 len(query)` (no re-finding inside a previous match), the
hit list is strictly increasing in page index, and a page with
extracted text contributes a hit precisely when at least one of its
occurrences produced a usable rectangle. -/
theorem c7_scan_resume_and_page_order (text q : List Char) (pages : List Page)
    (query : List Char) :
    (∀ s, (scanStarts text q).head? = some s → leastOccFrom text q 0 s) ∧
      (scanStarts text q).Chain'
        (fun a b => leastOccFrom text q (a + max 1 q.length) b) ∧
      (buildHitsList pages query).Pairwise (fun h1 h2 => h1.page_index < h2.page_index) ∧
      (∀ i pg full, pg.text = some full →
        ((buildPageHit (pyStrip query) i pg).isSome = true ↔
          ∃ s ∈ scanStarts full (pyStrip query),
            (occRect pg.charbox s (min pg.nChars (s + (pyStrip query).length))).isSome = true)) := by
  refine ⟨?_, ?_, ?_, ?_⟩
  · intro s hs
    cases hl : scanStarts text q with
    | nil => rw [hl] at hs; simp at hs
    | cons a l =>
      rw [hl] at hs
      simp only [List.head?_cons, Option.some_inj] at hs
      subst hs
      exact findFrom_leastOcc (scanStartsAux_head hl)
  · exact List.Chain'.imp (fun a b hab => findFrom_leastOcc hab) scanStartsAux_chain
  · by_cases hq0 : pyStrip query = []
    · simp [buildHitsList, hq0]
    · rw [show buildHitsList pages query
          = pages.enum.filterMap (fun p => buildPageHit (pyStrip query) p.1 p.2) by
        simp [buildHitsList, hq0]]
      refine List.pairwise_filterMap.mpr ?_
      refine List.Pairwise.imp ?_ (pairwise_fst_lt_enumFrom 0 pages)
      intro a b hab h1 hh1 h2 hh2
      rw [buildPageHit_page_index hh1, buildPageHit_page_index hh2]
      exact hab
  · intro i pg full htext
    unfold buildPageHit
    rw [htext]
    simp only
    split
    · next hnil => simp [hnil]
    · split
      · next hrnil =>
        have hall := List.filterMap_eq_nil_iff.mp hrnil
        simp only [Option.isSome_none, Bool.false_eq_true, false_iff]
        rintro ⟨s, hs, hne⟩
        rw [hall s hs] at hne
        simp at hne
      · next hrne =>
        simp only [Option.isSome_some, true_iff]
        by_contra hno
        push_neg at hno
        refine hrne (List.filterMap_eq_nil_iff.mpr ?_)
        intro s hs
        have := hno s hs
        simpa [Option.isSome_iff_ne_none] using this

/-- C7 witness: on the text `"aba"` with query `"a"`, the first
recorded start (offset 0) is the leftmost occurrence. -/
theorem c7_witness : leastOccFrom ['a', 'b', 'a'] ['a'] 0 0 :=
  (c7_scan_resume_and_page_order ['a', 'b', 'a'] ['a'] [] []).1 0 (by decide)

/-! ## C2 / C5 / C6 — navigation boundaries, blank queries, status -/

theorem hget_set_self {l : List Hit} {n : Nat} {a : Hit} (h : n < l.length) :
    hget (l.set n a) n = a := by
  simp [hget, List.getD_eq_getElem?_getD, List.getElem?_set_self (by simpa using h)]

theorem hget_mem {l : List Hit} {n : Nat} (h : n < l.length) : hget l n ∈ l := by
  rw [hget, List.getD_eq_getElem?_getD, List.getElem?_eq_getElem h]
  exact List.getElem_mem h

/-- C2: with the hit list already built for the query (so no rebuild
happens), `find_prev` from `cursor == -1` lands on the last hit's last
rectangle and returns true; `find_next` at the last rectangle of the
last hit returns true and leaves the state unchanged; and `find_prev`
at the first rectangle of the first hit returns true and leaves the
state unchanged.  No wraparound in either direction. -/
theorem c2_boundary_behavior (s : ViewState) (query : List Char)
    (hdoc : docOk s.doc = true)
    (hq : pyStrip query ≠ [])
    (hlast : s.lastQuery = some (pyStrip query))
    (hne : s.hits ≠ [])
    (hrects : ∀ h ∈ s.hits, h.rects ≠ []) :
    (s.hitCursor = -1 →
      (findPrev query s).1 = true ∧
      (findPrev query s).2.hitCursor = (s.hits.length : ℤ) - 1 ∧
      hget (findPrev query s).2.hits (s.hits.length - 1)
        = { hget s.hits (s.hits.length - 1) with
            active_rect := (hget s.hits (s.hits.length - 1)).rects.length - 1 }) ∧
    (s.hitCursor = (s.hits.length : ℤ) - 1 →
      (hget s.hits (s.hits.length - 1)).active_rect
          = (hget s.hits (s.hits.length - 1)).rects.length - 1 →
      findNext query s = (true, s)) ∧
    (s.hitCursor = 0 →
      (hget s.hits 0).active_rect = 0 →
      findPrev query s = (true, s)) := by
  have hlen : 1 ≤ s.hits.length := List.length_pos.mpr hne
  have hnb : ¬(s.hits = [] ∨ s.lastQuery ≠ some (pyStrip query)) := by
    simp [hne, hlast]
  have hreb : rebuildIfNeeded (pyStrip query) s = s := by
    unfold rebuildIfNeeded
    rw [if_neg hnb]
  have hnext : findNext query s = nextStep s := by
    unfold findNext
    rw [hdoc, if_neg (by simp), if_neg hq, hreb]
  have hprev : findPrev query s = prevStep s := by
    unfold findPrev
    rw [hdoc, if_neg (by simp), if_neg hq, hreb]
  refine ⟨?_, ?_, ?_⟩
  · intro hc
    rw [hprev]
    unfold prevStep
    rw [if_neg hne, if_pos hc]
    refine ⟨rfl, by simp only; omega, by simp only; rw [hget_set_self (by omega)]⟩
  · intro hc hact
    rw [hnext]
    have hc1 : s.hitCursor ≠ -1 := by omega
    have hcur : s.hitCursor.toNat = s.hits.length - 1 := by omega
    have hr : (hget s.hits (s.hits.length - 1)).rects ≠ [] :=
      hrects _ (hget_mem (by omega))
    have hrl : 1 ≤ (hget s.hits (s.hits.length - 1)).rects.length :=
      List.length_pos.mpr hr
    unfold nextStep
    rw [if_neg hne, if_neg hc1, hcur, if_neg, if_neg]
    · omega
    · rintro ⟨-, hlt⟩
      omega
  · intro hc hact
    rw [hprev]
    have hc1 : s.hitCursor ≠ -1 := by omega
    have hcur : s.hitCursor.toNat = 0 := by omega
    unfold prevStep
    rw [if_neg hne, if_neg hc1, hcur, if_neg, if_neg]
    · omega
    · rintro ⟨-, hlt⟩
      omega

/-- C2 witness: on a one-hit session state with `cursor == -1`,
`find_prev` returns true and lands on the last (only) hit. -/
theorem c2_witness :
    (findPrev ['a'] freshHitState).1 = true ∧
      (findPrev ['a'] freshHitState).2.hitCursor = 0 := by
  obtain ⟨w1, w2, -⟩ :=
    (c2_boundary_behavior freshHitState ['a'] (by decide) (by decide) (by decide)
      (by decide) (by decide)).1 (by decide)
  exact ⟨w1, by rw [w2]; decide⟩

/-- C5 (amended): `find_next`/`find_prev` with an empty or blank query
return false without raising and leave the session state entirely
unchanged — the hit list, cursor and last-searched query are *not*
cleared. -/
theorem c5_blank_query_no_change (s : ViewState) (query : List Char)
    (hq : pyStrip query = []) :
    findNext query s = (false, s) ∧ findPrev query s = (false, s) := by
  constructor <;>
    · cases hd : docOk s.doc
      · simp [findNext, findPrev, hd]
      · simp [findNext, findPrev, hd, hq]

/-- C5 counterexample: after a successful `find_next("a")`, a blank
`find_next(" ")` returns false but leaves the hits non-empty, the
cursor at 0 and the last query set — the claim says it clears all of
these back to Idle. -/
theorem c5_state_not_cleared :
    (findNext [' '] afterFirstNext).1 = false ∧
      (findNext [' '] afterFirstNext).2.hits ≠ [] ∧
      (findNext [' '] afterFirstNext).2.hitCursor = 0 ∧
      (findNext [' '] afterFirstNext).2.lastQuery = some ['a'] ∧
      (findPrev [' '] afterFirstNext).2.hits ≠ [] := by
  decide

/-- C5 witness: a blank query on a mid-session state returns false and
changes nothing. -/
theorem c5_witness :
    findNext [' '] oneHitState = (false, oneHitState) ∧
      findPrev [' '] oneHitState = (false, oneHitState) :=
  c5_blank_query_no_change oneHitState [' '] (by decide)

/-- C6: `get_search_status` returns `none` exactly when the cursor is
-1 or the total rectangle count is 0; otherwise (with a valid active
index) it returns `(before + active + 1, total, page_index + 1)` where
`before` sums the rectangle counts of all hits before the cursor and
`total` sums them over all hits. -/
theorem c6_status_formula (s : ViewState) (hge : -1 ≤ s.hitCursor) :
    (getSearchStatus s = none ↔ s.hitCursor = -1 ∨ totalRects s = 0) ∧
      (0 ≤ s.hitCursor →
        totalRects s ≠ 0 →
        (hget s.hits s.hitCursor.toNat).active_rect
            < (hget s.hits s.hitCursor.toNat).rects.length →
        getSearchStatus s
          = some (beforeRects s + (hget s.hits s.hitCursor.toNat).active_rect + 1,
              totalRects s, (hget s.hits s.hitCursor.toNat).page_index + 1)) := by
  constructor
  · unfold getSearchStatus
    split
    · next hcond =>
      simp only [true_iff]
      rcases hcond with hnil | hneg
      · right
        simp [totalRects, hnil]
      · left
        omega
    · next hcond =>
      push_neg at hcond
      split
      · next htot => simp [htot]
      · next htot =>
        constructor
        · intro h
          exact absurd h (by simp)
        · rintro (h1 | h2)
          · exact absurd h1 (by omega)
          · exact absurd h2 htot
  · intro hc htot hact
    have hne : s.hits ≠ [] := by
      intro hnil
      exact htot (by simp [totalRects, hnil])
    have hcond : ¬(s.hits = [] ∨ s.hitCursor < 0) := by
      push_neg
      exact ⟨hne, by omega⟩
    unfold getSearchStatus
    rw [if_neg hcond, if_neg htot]
    have hmin : min (hget s.hits s.hitCursor.toNat).active_rect
        ((hget s.hits s.hitCursor.toNat).rects.length - 1)
        = (hget s.hits s.hitCursor.toNat).active_rect := by
      omega
    rw [hmin]

/-- C6 witness: on a concrete one-hit state with the cursor on the only
rectangle, the status triple is `(1, 1, 1)`. -/
theorem c6_witness :
    getSearchStatus oneHitState = some (1, 1, 1) := by
  have h := (c6_status_formula oneHitState (by decide)).2 (by decide) (by decide) (by decide)
  rw [h]
  decide

/-! ## C4 — snippet/rectangle correspondence -/

/-- C4: the claim says the snippet at index `j` belongs to the same
occurrence as the rectangle at index `j`, also on pages where some
occurrences were discarded.  On `mixPage` the occurrence at offset 0 is
discarded (no usable box) and the one at offset 24 is kept, so the only
rectangle comes from offset 24 (`keptStarts = [24]`) — but the only
snippet is the one built for offset 0, and the two snippets differ.
The code truncates the snippet list from the end instead of dropping
the snippet of the discarded occurrence, contradicting the claim and
the code's own comment. -/
theorem c4_snippet_misalignment :
    (buildPageHit ['a'] 0 mixPage).isSome = true ∧
      ((buildPageHit ['a'] 0 mixPage).getD ⟨0, [], [], 0⟩).rects.length = 1 ∧
      keptStarts ['a'] mixPage mixText = [24] ∧
      ((buildPageHit ['a'] 0 mixPage).getD ⟨0, [], [], 0⟩).snippets
        = [buildSnippet 0 mixText 0 1] ∧
      buildSnippet 0 mixText 0 1 ≠ buildSnippet 0 mixText 24 25 := by
  decide

/-! ## C10 — one result per rectangle -/

theorem hitLenOk_hget {l : List Hit} (hl : ∀ x ∈ l, hitLenOk x) (n : Nat) :
    hitLenOk (hget l n) := by
  by_cases hn : n < l.length
  · exact hl _ (hget_mem hn)
  · rw [hget, List.getD_eq_getElem?_getD, List.getElem?_eq_none (by omega)]
    rfl

theorem lenOk_set {l : List Hit} {n : Nat} {a : Hit}
    (hl : ∀ x ∈ l, hitLenOk x) (ha : hitLenOk a) :
    ∀ x ∈ l.set n a, hitLenOk x := by
  intro x hx
  rcases List.mem_or_eq_of_mem_set hx with hm | rfl
  · exact hl x hm
  · exact ha

theorem buildPageHit_lenOk {q : List Char} {i : Nat} {pg : Page} {h : Hit}
    (hh : buildPageHit q i pg = some h) : hitLenOk h := by
  unfold buildPageHit at hh
  split at hh
  · exact absurd hh (by simp)
  · next full htext =>
    split at hh
    · exact absurd hh (by simp)
    · split at hh
      · exact absurd hh (by simp)
      · cases hh
        unfold hitLenOk
        simp only
        split
        · next hne =>
          have hle : (pageRects q pg full).length ≤ (pageSnippets q i pg full).length := by
            have h1 : (pageSnippets q i pg full).length = (scanStarts full q).length :=
              List.length_map _ _
            have h2 : (pageRects q pg full).length ≤ (scanStarts full q).length :=
              List.length_filterMap_le _ _
            omega
          simp [List.length_take, Nat.min_eq_left hle]
        · next heq => omega

theorem lenOk_buildHitsList (pages : List Page) (query : List Char) :
    ∀ h ∈ buildHitsList pages query, hitLenOk h := by
  intro h hm
  unfold buildHitsList at hm
  split at hm
  · simp at hm
  · rcases List.mem_filterMap.mp hm with ⟨p, _, hp⟩
    exact buildPageHit_lenOk hp

theorem lenOk_buildHits {query : List Char} {s : ViewState} (hs : stateLenOk s) :
    stateLenOk (buildHits query s) := by
  unfold buildHits
  split
  · exact hs
  · exact lenOk_buildHitsList _ _

theorem lenOk_rebuildIfNeeded (q : List Char) {s : ViewState} (hs : stateLenOk s) :
    stateLenOk (rebuildIfNeeded q s) := by
  unfold rebuildIfNeeded
  split
  · exact lenOk_buildHits hs
  · exact hs

theorem lenOk_nextStep {s1 : ViewState} (hs : stateLenOk s1) :
    stateLenOk (nextStep s1).2 := by
  unfold nextStep
  split
  · exact hs
  · split
    · exact lenOk_set hs (hitLenOk_hget hs _)
    · split
      · exact lenOk_set hs (hitLenOk_hget hs _)
      · split
        · exact lenOk_set hs (hitLenOk_hget hs _)
        · exact hs

theorem lenOk_prevStep {s1 : ViewState} (hs : stateLenOk s1) :
    stateLenOk (prevStep s1).2 := by
  unfold prevStep
  split
  · exact hs
  · split
    · exact lenOk_set hs (hitLenOk_hget hs _)
    · split
      · exact lenOk_set hs (hitLenOk_hget hs _)
      · split
        · exact lenOk_set hs (hitLenOk_hget hs _)
        · exact hs

theorem lenOk_findNext (q : List Char) {s : ViewState} (hs : stateLenOk s) :
    stateLenOk (findNext q s).2 := by
  unfold findNext
  split
  · exact hs
  · split
    · exact hs
    · exact lenOk_nextStep (lenOk_rebuildIfNeeded _ hs)

theorem lenOk_findPrev (q : List Char) {s : ViewState} (hs : stateLenOk s) :
    stateLenOk (findPrev q s).2 := by
  unfold findPrev
  split
  · exact hs
  · split
    · exact hs
    · exact lenOk_prevStep (lenOk_rebuildIfNeeded _ hs)

theorem lenOk_gotoResult (p : Nat) (r : ℤ) {s : ViewState} (hs : stateLenOk s) :
    stateLenOk (gotoResult p r s).2 := by
  unfold gotoResult
  split
  · exact hs
  · split
    · exact hs
    · split
      · exact hs
      · exact lenOk_set hs (hitLenOk_hget hs _)

theorem reachable_lenOk {s : ViewState} (hs : Reachable s) : stateLenOk s := by
  induction hs with
  | empty => intro h hm; simp at hm
  | load pages => intro h hm; simp at hm
  | next q s _ ih => exact lenOk_findNext q ih
  | prev q s _ ih => exact lenOk_findPrev q ih
  | goto p r s _ ih => exact lenOk_gotoResult p r ih

/-- C10: in every reachable session state in which the status is
present, the number of entries of `get_search_results` equals the
`total` field of the status (the total rectangle count over all hits):
one `SearchResult` per snippet coincides with one per rectangle. -/
theorem c10_results_count_matches_total (s : ViewState) (hs : Reachable s)
    (t : Nat × Nat × Nat) (hst : getSearchStatus s = some t) :
    (getSearchResults s).length = t.2.1 := by
  have hlen : ∀ h ∈ s.hits, hitLenOk h := reachable_lenOk hs
  have ht : t.2.1 = totalRects s := by
    unfold getSearchStatus at hst
    split at hst
    · exact absurd hst (by simp)
    · split at hst
      · exact absurd hst (by simp)
      · rw [Option.some_inj] at hst
        rw [← hst]
  rw [ht]
  unfold getSearchResults totalRects
  rw [List.flatMap_def, List.length_flatten, List.map_map]
  refine congrArg List.sum (List.map_congr_left ?_)
  intro h hm
  have := hlen h hm
  simpa using this

/-- C10 witness: in the concrete reachable state after one successful
`find_next("a")`, the status total is 1 and the results list has one
entry. -/
theorem c10_witness :
    getSearchStatus afterFirstNext = some (1, 1, 1) ∧
      (getSearchResults afterFirstNext).length = 1 := by
  refine ⟨by decide, ?_⟩
  exact c10_results_count_matches_total afterFirstNext
    (Reachable.next ['a'] ⟨some [onePage], [], -1, none⟩ (Reachable.load [onePage]))
    (1, 1, 1) (by decide)

end PdfViewerCore
